import Mathlib

/-!
Shallow embedding of `src/main.rs` (marathon-route tile scraper).

Coordinate values are `f64` in the source; the program only copies them and
compares them for equality, so we model them as `ℚ` (exact for every non-NaN
value the program could compare). The `BTreeMap<i64, Vec<f64>>` accumulator is
modelled as a key-sorted association list with the map operations the program
uses (`get_mut`, `insert`, ordered iteration). Rust `Vec` indexing that can
panic (`coord[i + 1]` on an odd-length vector, `%` by zero) is modelled with
`Option`: `none` is a panic.
-/

namespace Mcm

/-- Rust enum `CoordinateValue` (`src/main.rs` lines 92–97): an untagged value
that is either a single number or a flat array of numbers. -/
inductive CoordinateValue where
  | Single (val : ℚ)
  | Array (arr : List ℚ)
  deriving DecidableEq

/-- Rust enum `GeometryCoordinate` (`src/main.rs` lines 83–90): the four
nesting depths a GeoJSON `coordinates` value can take. -/
inductive GeometryCoordinate where
  | Single (val : ℚ)
  | Array (arr : List CoordinateValue)
  | DoubleArray (arr : List (List CoordinateValue))
  | TripleArray (arr : List (List (List CoordinateValue)))
  deriving DecidableEq

/-- `CoordinateValue::flatten` (`src/main.rs` lines 171–178). -/
def CoordinateValue.flatten : CoordinateValue → List ℚ
  | .Single val => [val]
  | .Array arr => arr

/-- `GeometryCoordinate::flatten` (`src/main.rs` lines 139–169): the four
hand-written cases, each a nest of `flat_map`s. -/
def GeometryCoordinate.flatten : GeometryCoordinate → List ℚ
  | .Single val => [val]
  | .Array arr => arr.flatMap CoordinateValue.flatten
  | .DoubleArray arr =>
      arr.flatMap (fun inner_arr => inner_arr.flatMap CoordinateValue.flatten)
  | .TripleArray arr =>
      arr.flatMap (fun inner_arr =>
        inner_arr.flatMap (fun second_arr =>
          second_arr.flatMap CoordinateValue.flatten))

/-- `existing_coords.windows(2).any(|window| window == [a, b])`
(`src/main.rs` lines 243–245): does `(a, b)` occur as a consecutive
two-element window of `l`? -/
def hasWindow (l : List ℚ) (a b : ℚ) : Bool :=
  match l with
  | x :: y :: rest => (x == a && y == b) || hasWindow (y :: rest) a b
  | _ => false

/-- The pairwise access pattern `for i in (0..len).step_by(2) { v[i], v[i+1] }`
shared by the merge loop (`src/main.rs` lines 241–242) and the GPX writer
(`src/main.rs` lines 15–16). On an odd-length list the final `v[i + 1]`
access is out of bounds, which panics in Rust: modelled as `none`. -/
def pairUp : List ℚ → Option (List (ℚ × ℚ))
  | [] => some []
  | [_] => none
  | x :: y :: rest => (pairUp rest).map (fun ps => (x, y) :: ps)

/-- The dedup-append loop body of `main` (`src/main.rs` lines 241–250):
walk the new flattened batch two elements at a time; a candidate pair that
already occurs as a consecutive window of the (growing) existing sequence is
skipped, otherwise its two components are pushed at the end. `none` models the
out-of-bounds panic on an odd-length batch. -/
def mergeInto (existing : List ℚ) : List ℚ → Option (List ℚ)
  | [] => some existing
  | [_] => none
  | x :: y :: rest =>
      if hasWindow existing x y then mergeInto existing rest
      else mergeInto (existing ++ [x, y]) rest

/-! ### The accumulated route: `BTreeMap<i64, Vec<f64>>` -/

/-- `unique_coords : BTreeMap<i64, Vec<f64>>` (`src/main.rs` line 199),
modelled as a key-sorted association list. -/
abbrev RouteMap := List (Int × List ℚ)

/-- `BTreeMap::get` / `get_mut` lookup: value stored at key `fid`. -/
def findSeq : RouteMap → Int → Option (List ℚ)
  | [], _ => none
  | (k, v) :: rest, fid => if k = fid then some v else findSeq rest fid

/-- `BTreeMap::insert` on the sorted association list. -/
def insertSorted (fid : Int) (coords : List ℚ) : RouteMap → RouteMap
  | [] => [(fid, coords)]
  | (k, v) :: rest =>
      if fid < k then (fid, coords) :: (k, v) :: rest
      else if fid = k then (fid, coords) :: rest
      else (k, v) :: insertSorted fid coords rest

/-- In-place mutation through `get_mut`: replace the value stored at `fid`. -/
def updateSeq (fid : Int) (coords : List ℚ) : RouteMap → RouteMap :=
  List.map (fun kv => if kv.1 = fid then (kv.1, coords) else kv)

/-- One feature's contribution to `unique_coords` (`src/main.rs` lines
239–254): if the id is present, run the dedup-append loop on its sequence
(`none` = panic on an odd batch); otherwise insert the flattened batch
verbatim. -/
def mergeFeature (route : RouteMap) (fid : Int) (flattened_coords : List ℚ) :
    Option RouteMap :=
  match findSeq route fid with
  | some existing_coords =>
      (mergeInto existing_coords flattened_coords).map
        (fun merged => updateSeq fid merged route)
  | none => some (insertSorted fid flattened_coords route)

/-! ### Decoded tile structure (`GeoData` and friends) -/

/-- Rust enum `GeometryType` (`src/main.rs` lines 100–107). -/
inductive GeometryType where
  | LineString | MultiPolygon | Polygon | MultiPoint | Point | MultiLineString
  deriving DecidableEq

/-- Rust enum `FeatureType` (`src/main.rs` lines 72–74). -/
inductive FeatureType where
  | Feature
  deriving DecidableEq

/-- Rust struct `Geometry` (`src/main.rs` lines 77–81). -/
structure Geometry where
  geometry_type : GeometryType
  coordinates : GeometryCoordinate

/-- Rust struct `FeatureProperties` (`src/main.rs` lines 111–122); none of
these fields are read by the pipeline. -/
structure FeatureProperties where
  class_ : Option String := none
  elevation : Option Int := none
  index : Option Int := none
  altitude_mode : Option String := none
  begin_ : Option String := none
  descriptio : Option String := none
  end_ : Option String := none
  name : Option String := none
  timestamp : Option String := none

/-- Rust struct `GeoFeature` (`src/main.rs` lines 63–69). -/
structure GeoFeature where
  feature_type : FeatureType := .Feature
  id : Int
  properties : FeatureProperties := {}
  geometry : Geometry

/-- Rust struct `CollectionProperties` (`src/main.rs` lines 125–129). -/
structure CollectionProperties where
  layer : String
  version : Int := 2
  extent : Int := 4096

/-- Rust struct `FeatureCollection` (`src/main.rs` lines 55–60). -/
structure FeatureCollection where
  collection_type : String := "FeatureCollection"
  properties : CollectionProperties
  features : List GeoFeature

/-- Rust struct `DataProperties` (`src/main.rs` lines 132–137). -/
structure DataProperties where
  zoom : Int
  x : Int
  y : Int
  compressed : Option Bool := none

/-- Rust struct `GeoData` (`src/main.rs` lines 47–52). -/
structure GeoData where
  data_type : String := "FeatureCollection"
  properties : DataProperties
  features : List FeatureCollection

/-- The target layer name hard-coded in `main` (`src/main.rs` line 233). -/
def targetLayerName : String := "mcm-2018-marathon-v1-31s1ih"

/-- Merge every feature of one collection, in order (`src/main.rs` lines
237–255). -/
def mergeFeatures (route : RouteMap) : List GeoFeature → Option RouteMap
  | [] => some route
  | feature :: rest =>
      match mergeFeature route feature.id feature.geometry.coordinates.flatten with
      | none => none
      | some route2 => mergeFeatures route2 rest

/-- The per-tile collection loop (`src/main.rs` lines 232–256): collections
whose `properties.layer` differs from the target are skipped with `continue`;
matching ones have all their features merged. -/
def processCollections (route : RouteMap) : List FeatureCollection → Option RouteMap
  | [] => some route
  | fc :: rest =>
      if fc.properties.layer ≠ targetLayerName then processCollections route rest
      else
        match mergeFeatures route fc.features with
        | none => none
        | some route2 => processCollections route2 rest

/-- The features the filter keeps from a tile: exactly those inside a
collection whose layer name equals the target (the loop at `src/main.rs`
lines 232–237 iterates precisely these). -/
def selectedFeatures (collections : List FeatureCollection) : List GeoFeature :=
  collections.flatMap
    (fun fc => if fc.properties.layer = targetLayerName then fc.features else [])

/-! ### Tile grid walk -/

/-- Rust struct `Tile` (`src/main.rs` lines 41–44). -/
structure Tile where
  x : Int
  y : Int
  deriving DecidableEq

/-- The inclusive range `lo..=hi` as a list (empty when `hi < lo`). -/
def rangeIncl (lo hi : Int) : List Int :=
  (List.range (hi + 1 - lo).toNat).map (fun n : Nat => lo + (n : Int))

/-- The nested tile loops `for x in tl.x..=br.x { for y in tl.y..=br.y }`
(`src/main.rs` lines 201–202): x-major order, both bounds inclusive. -/
def gridWalk (top_left bottom_right : Tile) : List (Int × Int) :=
  (rangeIncl top_left.x bottom_right.x).flatMap
    (fun x => (rangeIncl top_left.y bottom_right.y).map (fun y => (x, y)))

/-- `top_left_tile` (`src/main.rs` line 188). -/
def top_left_tile : Tile := { x := 12531, y := 9365 }

/-- `bottom_right_tile` (`src/main.rs` line 189). -/
def bottom_right_tile : Tile := { x := 12540, y := 9376 }

/-- `total_tile_count` (`src/main.rs` lines 192–193). -/
def total_tile_count (top_left bottom_right : Tile) : Int :=
  (bottom_right.x - top_left.x + 1) * (bottom_right.y - top_left.y + 1)

/-- `NOTIFY_EVERY_PERCENT` (`src/main.rs` line 197). -/
def NOTIFY_EVERY_PERCENT : Int := 10

/-- The progress notification computation (`src/main.rs` lines 259–264):
`divisor = total / 10` with Rust's truncating `i32` division, then
`processed % divisor`, which panics when the divisor is zero (`none`).
`some b` records whether the notification fires. -/
def progressCheck (processed_tile_count total : Int) : Option Bool :=
  let divisor := Int.tdiv total NOTIFY_EVERY_PERCENT
  if divisor = 0 then none
  else some (Int.tmod processed_tile_count divisor = 0)

/-! ### GPX output and the top-level run -/

/-- The waypoint-building loop of `write_to_gpx` (`src/main.rs` lines 11–19):
iterate the map's entries in key order and read each sequence pairwise;
`none` models the `coord[i + 1]` panic on an odd-length sequence. -/
def write_to_gpx : RouteMap → Option (List (ℚ × ℚ))
  | [] => some []
  | (_, coord) :: rest =>
      match pairUp coord with
      | none => none
      | some ps => (write_to_gpx rest).map (fun tail => ps ++ tail)

/-- The tile loop of `main` (`src/main.rs` lines 201–270). Fetching and
decoding one tile (HTTP GET, `tippecanoe-decode`, JSON parse) is an external
collaborator, passed in as `fetchDecode`; `Except.error` covers the `?`
propagation of a transport error and the `expect` aborts, all of which stop
the whole run at that tile. A `none` from the merge steps is the
out-of-bounds panic, also fatal. -/
def runTiles (fetchDecode : Int × Int → Except String GeoData) :
    List (Int × Int) → RouteMap → Except String RouteMap
  | [], route => .ok route
  | t :: ts, route =>
      match fetchDecode t with
      | .error e => .error e
      | .ok geo_data =>
          match processCollections route geo_data.features with
          | none => .error "index out of bounds"
          | some route2 => runTiles fetchDecode ts route2

/-- `main` (`src/main.rs` lines 180–278): walk the hard-coded grid
accumulating `unique_coords`, and only after the whole loop has succeeded
write the GPX output (`src/main.rs` line 273). The run's observable output is
`ok` with the written waypoints, or `error` with nothing written. -/
def runMain (fetchDecode : Int × Int → Except String GeoData) :
    Except String (List (ℚ × ℚ)) :=
  match runTiles fetchDecode (gridWalk top_left_tile bottom_right_tile) [] with
  | .error e => .error e
  | .ok unique_coords =>
      match write_to_gpx unique_coords with
      | none => .error "index out of bounds"
      | some waypoints => .ok waypoints

/-! ### Reference flattening (spec §4.3)

The spec's generic traversal over a tagged union `{Scalar, Sequence}`:
a scalar contributes itself; a sequence contributes the concatenation of
flattening each element in order. This is the reference side of the
refinement claim about `GeometryCoordinate::flatten`. -/

/-- The spec's tagged union `{Scalar(number), Sequence(list of Self)}`. -/
inductive NestedCoord where
  | Scalar (v : ℚ)
  | Sequence (elems : List NestedCoord)

mutual

/-- Reference depth-first left-to-right flattening over `NestedCoord`. -/
def refFlatten : NestedCoord → List ℚ
  | .Scalar v => [v]
  | .Sequence es => refFlattenList es

/-- Flatten a list of `NestedCoord`s and concatenate, in order. -/
def refFlattenList : List NestedCoord → List ℚ
  | [] => []
  | e :: es => refFlatten e ++ refFlattenList es

end

/-- The evident injection of a `CoordinateValue` into the tagged union: a
scalar is a scalar, a flat array is a sequence of scalars. -/
def CoordinateValue.toNested : CoordinateValue → NestedCoord
  | .Single v => .Scalar v
  | .Array arr => .Sequence (arr.map .Scalar)

/-- The evident injection of a `GeometryCoordinate` into the tagged union,
one `Sequence` layer per nesting depth. -/
def GeometryCoordinate.toNested : GeometryCoordinate → NestedCoord
  | .Single v => .Scalar v
  | .Array arr => .Sequence (arr.map CoordinateValue.toNested)
  | .DoubleArray arr =>
      .Sequence (arr.map fun inner =>
        .Sequence (inner.map CoordinateValue.toNested))
  | .TripleArray arr =>
      .Sequence (arr.map fun inner =>
        .Sequence (inner.map fun second =>
          .Sequence (second.map CoordinateValue.toNested)))

/-- Does a `CoordinateValue` leaf contribute a whole number of (x, y)
coordinates to the flattening? A lone scalar leaf contributes one number
(never a whole pair); a flat array leaf contributes a whole number of pairs
exactly when its length is even. -/
def CoordinateValue.pairLeaf : CoordinateValue → Bool
  | .Single _ => false
  | .Array arr => decide (Even arr.length)

/-- A `GeometryCoordinate` made only of pair-complete leaves: not a lone
scalar, and every `CoordinateValue` inside satisfies `pairLeaf`. -/
def GeometryCoordinate.pairLeaves : GeometryCoordinate → Bool
  | .Single _ => false
  | .Array arr => arr.all CoordinateValue.pairLeaf
  | .DoubleArray arr => arr.all (fun inner => inner.all CoordinateValue.pairLeaf)
  | .TripleArray arr =>
      arr.all (fun inner =>
        inner.all (fun second => second.all CoordinateValue.pairLeaf))

/-! ### Lemmas about `hasWindow`, `pairUp` and `mergeInto` -/

/-- `hasWindow` is exactly "some consecutive window, at a position `i` with
`i + 1 < length`, equals `(a, b)`". -/
theorem hasWindow_iff (l : List ℚ) (a b : ℚ) :
    hasWindow l a b = true ↔
      ∃ i, i + 1 < l.length ∧ l[i]? = some a ∧ l[i + 1]? = some b := by
  induction l with
  | nil => simp [hasWindow]
  | cons x rest ih =>
    cases rest with
    | nil =>
      simp only [hasWindow, List.length_singleton]
      constructor
      · intro h; cases h
      · rintro ⟨i, hi, -⟩; omega
    | cons y rest2 =>
      rw [hasWindow]
      constructor
      · intro h
        rcases Bool.or_eq_true_iff.mp h with h1 | h2
        · obtain ⟨hx, hy⟩ := Bool.and_eq_true_iff.mp h1
          exact ⟨0, by simp, by simpa using (beq_iff_eq.mp hx),
            by simpa using (beq_iff_eq.mp hy)⟩
        · obtain ⟨i, hi, ha, hb⟩ := ih.mp h2
          exact ⟨i + 1, by simpa using hi, by simpa using ha, by simpa using hb⟩
      · rintro ⟨i, hi, ha, hb⟩
        cases i with
        | zero =>
          simp only [List.getElem?_cons_zero, Option.some_inj] at ha
          simp only [List.getElem?_cons_succ, List.getElem?_cons_zero,
            Option.some_inj] at hb
          subst ha; subst hb
          simp
        | succ i =>
          refine Bool.or_eq_true_iff.mpr (Or.inr (ih.mpr ⟨i, ?_, ?_, ?_⟩))
          · simpa using hi
          · simpa using ha
          · simpa using hb

/-- A window of `l` is still a window of `l ++ t`. -/
theorem hasWindow_append_left (l t : List ℚ) (a b : ℚ)
    (h : hasWindow l a b = true) : hasWindow (l ++ t) a b = true := by
  induction l with
  | nil => cases h
  | cons x rest ih =>
    cases rest with
    | nil => cases h
    | cons y rest2 =>
      rw [hasWindow] at h
      rw [List.cons_append, List.cons_append, hasWindow]
      rcases Bool.or_eq_true_iff.mp h with h1 | h2
      · exact Bool.or_eq_true_iff.mpr (Or.inl h1)
      · exact Bool.or_eq_true_iff.mpr
          (Or.inr (by simpa [List.cons_append] using ih h2))

/-- The freshly appended pair is a window of the extended sequence. -/
theorem hasWindow_append_pair (l : List ℚ) (a b : ℚ) :
    hasWindow (l ++ [a, b]) a b = true := by
  induction l with
  | nil => simp [hasWindow]
  | cons x rest ih =>
    cases rest with
    | nil => simp [hasWindow]
    | cons y rest2 =>
      rw [List.cons_append, List.cons_append, hasWindow]
      exact Bool.or_eq_true_iff.mpr (Or.inr (by simpa [List.cons_append] using ih))

/-- The merge loop only ever appends: the existing sequence stays a prefix. -/
theorem mergeInto_extends (e l : List ℚ) :
    ∀ m, mergeInto e l = some m → ∃ t, m = e ++ t := by
  induction e, l using mergeInto.induct with
  | case1 e => intro m hm; exact ⟨[], by simpa [mergeInto] using hm.symm⟩
  | case2 e x => intro m hm; simp [mergeInto] at hm
  | case3 e x y rest hw ih =>
    intro m hm
    rw [mergeInto, if_pos hw] at hm
    exact ih m hm
  | case4 e x y rest hw ih =>
    intro m hm
    rw [mergeInto, if_neg hw] at hm
    obtain ⟨t, ht⟩ := ih m hm
    exact ⟨[x, y] ++ t, by simpa using ht⟩

/-- Windows of the existing sequence survive the merge. -/
theorem hasWindow_mergeInto (e l m : List ℚ) (a b : ℚ)
    (hm : mergeInto e l = some m) (h : hasWindow e a b = true) :
    hasWindow m a b = true := by
  obtain ⟨t, ht⟩ := mergeInto_extends e l m hm
  subst ht
  exact hasWindow_append_left e t a b h

/-- The merge loop succeeds exactly when the pairwise walk of the batch
does (i.e. the batch has even length). -/
theorem mergeInto_isSome_iff (e l : List ℚ) :
    (mergeInto e l).isSome = (pairUp l).isSome := by
  induction e, l using mergeInto.induct with
  | case1 e => simp [mergeInto, pairUp]
  | case2 e x => simp [mergeInto, pairUp]
  | case3 e x y rest hw ih =>
    rw [mergeInto, if_pos hw, pairUp]
    simpa using ih
  | case4 e x y rest hw ih =>
    rw [mergeInto, if_neg hw, pairUp]
    simpa using ih

/-- `pairUp` succeeds exactly on even-length lists. -/
theorem pairUp_isSome_iff (l : List ℚ) :
    (pairUp l).isSome ↔ Even l.length := by
  induction l using pairUp.induct with
  | case1 => simp [pairUp]
  | case2 x => simp [pairUp, Nat.even_iff]
  | case3 x y rest ih =>
    rw [pairUp]
    have hmap : (Option.map (fun ps => (x, y) :: ps) (pairUp rest)).isSome
        = (pairUp rest).isSome := by
      cases pairUp rest <;> rfl
    rw [hmap, ih]
    simp only [List.length_cons, Nat.even_iff]
    omega

/-- After a successful merge, every candidate pair of the batch occurs as a
window of the merged sequence (it either matched one, or was appended). -/
theorem mergeInto_pairs_window (e l : List ℚ) :
    ∀ m ps, mergeInto e l = some m → pairUp l = some ps →
      ∀ p ∈ ps, hasWindow m p.1 p.2 = true := by
  induction e, l using mergeInto.induct with
  | case1 e =>
    intro m ps _ hps
    simp only [pairUp, Option.some_inj] at hps
    simp [← hps]
  | case2 e x => intro m ps hm _; simp [mergeInto] at hm
  | case3 e x y rest hw ih =>
    intro m ps hm hps
    rw [mergeInto, if_pos hw] at hm
    rw [pairUp] at hps
    obtain ⟨ps2, hps2, rfl⟩ := Option.map_eq_some'.mp hps
    intro p hp
    rcases List.mem_cons.mp hp with rfl | hp2
    · exact hasWindow_mergeInto e rest m x y hm hw
    · exact ih m ps2 hm hps2 p hp2
  | case4 e x y rest hw ih =>
    intro m ps hm hps
    rw [mergeInto, if_neg hw] at hm
    rw [pairUp] at hps
    obtain ⟨ps2, hps2, rfl⟩ := Option.map_eq_some'.mp hps
    intro p hp
    rcases List.mem_cons.mp hp with rfl | hp2
    · exact hasWindow_mergeInto (e ++ [x, y]) rest m x y hm
        (hasWindow_append_pair e x y)
    · exact ih m ps2 hm hps2 p hp2

/-- If every candidate pair of the batch already occurs as a window of the
existing sequence, the merge appends nothing. -/
theorem mergeInto_all_windows (e l : List ℚ) :
    ∀ ps, pairUp l = some ps → (∀ p ∈ ps, hasWindow e p.1 p.2 = true) →
      mergeInto e l = some e := by
  induction l using pairUp.induct with
  | case1 => intro ps _ _; rfl
  | case2 x => intro ps hps _; simp [pairUp] at hps
  | case3 x y rest ih =>
    intro ps hps hall
    rw [pairUp] at hps
    obtain ⟨ps2, hps2, rfl⟩ := Option.map_eq_some'.mp hps
    have hxy : hasWindow e x y = true := hall (x, y) (List.mem_cons_self _ _)
    rw [mergeInto, if_pos hxy]
    exact ih ps2 hps2 (fun p hp => hall p (List.mem_cons_of_mem _ hp))

/-- The inserted key is found with the inserted value. -/
theorem findSeq_insertSorted (route : RouteMap) (fid : Int) (coords : List ℚ) :
    findSeq (insertSorted fid coords route) fid = some coords := by
  induction route with
  | nil => simp [insertSorted, findSeq]
  | cons kv rest ih =>
    obtain ⟨k, v⟩ := kv
    rw [insertSorted]
    by_cases h1 : fid < k
    · rw [if_pos h1, findSeq, if_pos rfl]
    · rw [if_neg h1]
      by_cases h2 : fid = k
      · rw [if_pos h2, findSeq, if_pos rfl]
      · rw [if_neg h2, findSeq, if_neg (fun hh => h2 hh.symm)]
        exact ih

/-! ### Claims about the merge step -/

/-- C1: for a feature identity already present, the merge processes the
flattened batch two elements at a time; a candidate pair is skipped exactly
when it matches some consecutive two-element window (position `i` with
`i + 1 < len`) of the accumulated sequence, and is otherwise appended at the
end; merging `[3,4,5,6]` into `[1,2,3,4]` yields `[1,2,3,4,5,6]`. -/
theorem claim_C1_merge_dedup_append :
    (∀ (existing : List ℚ) (a b : ℚ),
        hasWindow existing a b = true ↔
          ∃ i, i + 1 < existing.length ∧
            existing[i]? = some a ∧ existing[i + 1]? = some b)
    ∧ (∀ (existing : List ℚ) (a b : ℚ) (rest : List ℚ),
        mergeInto existing (a :: b :: rest) =
          if hasWindow existing a b then mergeInto existing rest
          else mergeInto (existing ++ [a, b]) rest)
    ∧ mergeInto [1, 2, 3, 4] [3, 4, 5, 6] = some [1, 2, 3, 4, 5, 6] :=
  ⟨hasWindow_iff, fun _ _ _ _ => rfl, by decide⟩

/-- C2: a feature identity absent from the accumulated route is inserted with
its flattened batch verbatim, and looking the identity up afterwards returns
exactly that batch. -/
theorem claim_C2_first_sighting_verbatim :
    ∀ (route : RouteMap) (fid : Int) (coords : List ℚ),
      findSeq route fid = none →
      mergeFeature route fid coords = some (insertSorted fid coords route)
      ∧ findSeq (insertSorted fid coords route) fid = some coords := by
  intro route fid coords habs
  refine ⟨?_, findSeq_insertSorted route fid coords⟩
  rw [mergeFeature, habs]

/-- C2 witness: merging id 7 with `[1,2,3,4]` into the empty route stores
exactly `[1,2,3,4]`. -/
theorem claim_C2_first_sighting_verbatim_witness :
    mergeFeature [] 7 [1, 2, 3, 4] = some [(7, [1, 2, 3, 4])]
    ∧ findSeq [(7, [1, 2, 3, 4])] 7 = some [1, 2, 3, 4] :=
  claim_C2_first_sighting_verbatim [] 7 [1, 2, 3, 4] rfl

/-- C3: a batch all of whose candidate pairs already occur as consecutive
windows of the existing sequence merges to the unchanged sequence, and
re-merging an already merged batch is a no-op. -/
theorem claim_C3_merge_idempotent :
    (∀ (existing batch : List ℚ) (ps : List (ℚ × ℚ)),
        pairUp batch = some ps →
        (∀ p ∈ ps, hasWindow existing p.1 p.2 = true) →
        mergeInto existing batch = some existing)
    ∧ (∀ existing batch merged : List ℚ,
        mergeInto existing batch = some merged →
        mergeInto merged batch = some merged) := by
  refine ⟨fun e batch ps hps hall => mergeInto_all_windows e batch ps hps hall, ?_⟩
  intro e batch m hm
  obtain ⟨ps, hps⟩ : ∃ ps, pairUp batch = some ps := by
    have hiff := mergeInto_isSome_iff e batch
    rw [hm] at hiff
    cases hpu : pairUp batch
    · rw [hpu] at hiff; simp at hiff
    · exact ⟨_, rfl⟩
  exact mergeInto_all_windows m batch ps hps
    (mergeInto_pairs_window e batch m ps hm hps)

/-- C3 witness: `[3,4,1,2]` is all windows of `[1,2,3,4]`, so merging it
changes nothing; and re-merging `[3,4,5,6]` after it produced `[1,2,3,4,5,6]`
is a no-op. -/
theorem claim_C3_merge_idempotent_witness :
    mergeInto [1, 2, 3, 4] [3, 4, 1, 2] = some [1, 2, 3, 4]
    ∧ mergeInto [1, 2, 3, 4, 5, 6] [3, 4, 5, 6] = some [1, 2, 3, 4, 5, 6] :=
  ⟨claim_C3_merge_idempotent.1 [1, 2, 3, 4] [3, 4, 1, 2] [(3, 4), (1, 2)]
      (by decide) (by decide),
    claim_C3_merge_idempotent.2 [1, 2, 3, 4] [3, 4, 5, 6] [1, 2, 3, 4, 5, 6]
      (by decide)⟩

/-! ### Claims about flattening -/

/-- A pair-complete leaf flattens to an even-length list. -/
theorem even_flatten_of_pairLeaf (v : CoordinateValue)
    (h : v.pairLeaf = true) : Even v.flatten.length := by
  cases v with
  | Single val => cases h
  | Array arr =>
    simpa [CoordinateValue.pairLeaf, CoordinateValue.flatten] using h

/-- Flat-mapping `CoordinateValue.flatten` over pair-complete leaves gives an
even total length. -/
theorem even_flatMap_flatten (arr : List CoordinateValue)
    (h : ∀ v ∈ arr, v.pairLeaf = true) :
    Even (arr.flatMap CoordinateValue.flatten).length := by
  induction arr with
  | nil => simp
  | cons v rest ih =>
    rw [List.flatMap_cons, List.length_append]
    exact (even_flatten_of_pairLeaf v (h v (by simp))).add
      (ih (fun w hw => h w (by simp [hw])))

/-- Two nesting levels of pair-complete leaves give an even total length. -/
theorem even_flatMap_flatten2 (arr : List (List CoordinateValue))
    (h : ∀ inner ∈ arr, ∀ v ∈ inner, v.pairLeaf = true) :
    Even (arr.flatMap (fun inner => inner.flatMap CoordinateValue.flatten)).length := by
  induction arr with
  | nil => simp
  | cons inner rest ih =>
    rw [List.flatMap_cons, List.length_append]
    exact (even_flatMap_flatten inner (h inner (by simp))).add
      (ih (fun i hi v hv => h i (by simp [hi]) v hv))

/-- Three nesting levels of pair-complete leaves give an even total length. -/
theorem even_flatMap_flatten3 (arr : List (List (List CoordinateValue)))
    (h : ∀ inner ∈ arr, ∀ second ∈ inner, ∀ v ∈ second, v.pairLeaf = true) :
    Even (arr.flatMap (fun inner =>
      inner.flatMap (fun second =>
        second.flatMap CoordinateValue.flatten))).length := by
  induction arr with
  | nil => simp
  | cons inner rest ih =>
    rw [List.flatMap_cons, List.length_append]
    exact (even_flatMap_flatten2 inner (h inner (by simp))).add
      (ih (fun i hi s hs v hv => h i (by simp [hi]) s hs v hv))

/-- C4 counterexample: the representable shape "a lone scalar" flattens to a
singleton, whose length is odd — flattening does not always yield an
even-length sequence. -/
theorem claim_C4_counterexample_single_scalar :
    (GeometryCoordinate.Single 1).flatten = [1]
    ∧ ¬ Even (GeometryCoordinate.Single 1).flatten.length := by decide

/-- C4 (amended): for every nested coordinate structure whose leaves are all
pair-complete (no lone scalar anywhere, every innermost array of even
length), flattening yields a sequence of even length. -/
theorem claim_C4_amended_even_flatten :
    ∀ g : GeometryCoordinate, g.pairLeaves = true → Even g.flatten.length := by
  intro g hg
  cases g with
  | Single val => cases hg
  | Array arr =>
    rw [GeometryCoordinate.flatten]
    refine even_flatMap_flatten arr ?_
    simpa [GeometryCoordinate.pairLeaves, List.all_eq_true] using hg
  | DoubleArray arr =>
    rw [GeometryCoordinate.flatten]
    refine even_flatMap_flatten2 arr ?_
    simpa [GeometryCoordinate.pairLeaves, List.all_eq_true] using hg
  | TripleArray arr =>
    rw [GeometryCoordinate.flatten]
    refine even_flatMap_flatten3 arr ?_
    simpa [GeometryCoordinate.pairLeaves, List.all_eq_true] using hg

/-- C4 witness: the spec's example `[[1,2],[3,4]]` has pair-complete leaves
and flattens to an even-length sequence. -/
theorem claim_C4_amended_even_flatten_witness :
    Even (GeometryCoordinate.Array
      [CoordinateValue.Array [1, 2], CoordinateValue.Array [3, 4]]).flatten.length :=
  claim_C4_amended_even_flatten
    (GeometryCoordinate.Array [CoordinateValue.Array [1, 2], CoordinateValue.Array [3, 4]])
    (by decide)

/-- `refFlattenList` is the in-order concatenation of the flattenings. -/
theorem refFlattenList_eq_flatMap (l : List NestedCoord) :
    refFlattenList l = l.flatMap refFlatten := by
  induction l with
  | nil => rfl
  | cons e es ih => rw [refFlattenList, List.flatMap_cons, ih]

/-- The generic traversal agrees with `CoordinateValue::flatten`. -/
theorem refFlatten_toNested_cv (v : CoordinateValue) :
    refFlatten v.toNested = v.flatten := by
  cases v with
  | Single val => rfl
  | Array arr =>
    rw [CoordinateValue.toNested, refFlatten, refFlattenList_eq_flatMap,
      List.flatMap_map]
    simp [refFlatten, CoordinateValue.flatten]

/-- C5: the four hand-written flattening cases coincide with the reference
generic depth-first left-to-right traversal over the tagged union
`{Scalar, Sequence}`, and flattening `[[1,2],[3,4]]` yields `[1,2,3,4]`. -/
theorem claim_C5_flatten_refines_generic :
    (∀ v : CoordinateValue, v.flatten = refFlatten v.toNested)
    ∧ (∀ g : GeometryCoordinate, g.flatten = refFlatten g.toNested)
    ∧ (GeometryCoordinate.Array
        [CoordinateValue.Array [1, 2], CoordinateValue.Array [3, 4]]).flatten
      = [1, 2, 3, 4] := by
  refine ⟨fun v => (refFlatten_toNested_cv v).symm, fun g => ?_, by decide⟩
  cases g with
  | Single val => rfl
  | Array arr =>
    rw [GeometryCoordinate.flatten, GeometryCoordinate.toNested, refFlatten,
      refFlattenList_eq_flatMap, List.flatMap_map]
    simp [refFlatten_toNested_cv]
  | DoubleArray arr =>
    rw [GeometryCoordinate.flatten, GeometryCoordinate.toNested, refFlatten,
      refFlattenList_eq_flatMap, List.flatMap_map]
    simp [refFlatten, refFlattenList_eq_flatMap, List.flatMap_map,
      refFlatten_toNested_cv]
  | TripleArray arr =>
    rw [GeometryCoordinate.flatten, GeometryCoordinate.toNested, refFlatten,
      refFlattenList_eq_flatMap, List.flatMap_map]
    simp [refFlatten, refFlattenList_eq_flatMap, List.flatMap_map,
      refFlatten_toNested_cv]

/-! ### Claims about the grid walk -/

/-- Membership in the inclusive range. -/
theorem mem_rangeIncl (lo hi x : Int) :
    x ∈ rangeIncl lo hi ↔ lo ≤ x ∧ x ≤ hi := by
  simp only [rangeIncl, List.mem_map, List.mem_range]
  constructor
  · rintro ⟨n, hn, rfl⟩; omega
  · rintro ⟨h1, h2⟩; exact ⟨(x - lo).toNat, by omega, by omega⟩

/-- The inclusive range has no duplicates. -/
theorem nodup_rangeIncl (lo hi : Int) : (rangeIncl lo hi).Nodup :=
  (List.nodup_range _).map (fun a b h => by omega)

/-- The grid walk has no duplicates. -/
theorem nodup_gridWalk (tl br : Tile) : (gridWalk tl br).Nodup := by
  rw [gridWalk, List.nodup_flatMap]
  refine ⟨fun x _ => (nodup_rangeIncl tl.y br.y).map (fun a b h => by
    simpa using h), ?_⟩
  refine (nodup_rangeIncl tl.x br.x).imp ?_
  intro x1 x2 hne p hp1 hp2
  obtain ⟨y1, -, rfl⟩ := List.mem_map.mp hp1
  obtain ⟨y2, -, hp⟩ := List.mem_map.mp hp2
  exact hne (by simpa using (Prod.mk.injEq .. ▸ hp).1.symm)

/-- C6: for bounds with `tl.x ≤ br.x` and `tl.y ≤ br.y`, the tile loop
enumerates exactly the pairs inside the inclusive rectangle, each once, and
over `(0,0)`–`(1,1)` it produces `(0,0),(0,1),(1,0),(1,1)` in that
(x-major) order. -/
theorem claim_C6_grid_walk_inclusive :
    (∀ tl br : Tile, tl.x ≤ br.x → tl.y ≤ br.y →
      (∀ p : Int × Int, p ∈ gridWalk tl br ↔
          tl.x ≤ p.1 ∧ p.1 ≤ br.x ∧ tl.y ≤ p.2 ∧ p.2 ≤ br.y)
      ∧ (gridWalk tl br).Nodup)
    ∧ gridWalk { x := 0, y := 0 } { x := 1, y := 1 }
        = [(0, 0), (0, 1), (1, 0), (1, 1)] := by
  refine ⟨fun tl br _ _ => ⟨fun p => ?_, nodup_gridWalk tl br⟩, by decide⟩
  simp only [gridWalk, List.mem_flatMap, List.mem_map, mem_rangeIncl]
  constructor
  · rintro ⟨x, ⟨hx1, hx2⟩, y, ⟨hy1, hy2⟩, rfl⟩
    exact ⟨hx1, hx2, hy1, hy2⟩
  · rintro ⟨h1, h2, h3, h4⟩
    exact ⟨p.1, ⟨h1, h2⟩, p.2, ⟨h3, h4⟩, rfl⟩

/-- C6 witness: over `(0,0)`–`(1,1)` the walk contains `(1, 0)` and is
duplicate-free. -/
theorem claim_C6_grid_walk_inclusive_witness :
    ((1, 0) ∈ gridWalk { x := 0, y := 0 } { x := 1, y := 1 })
    ∧ (gridWalk { x := 0, y := 0 } { x := 1, y := 1 }).Nodup := by
  have h := claim_C6_grid_walk_inclusive.1 { x := 0, y := 0 } { x := 1, y := 1 }
    (by decide) (by decide)
  exact ⟨(h.1 (1, 0)).mpr (by decide), h.2⟩

/-! ### Claims about the layer filter and the run -/

/-- Merging a concatenated feature list is merging the parts in sequence. -/
theorem mergeFeatures_append (route : RouteMap) (l1 l2 : List GeoFeature) :
    mergeFeatures route (l1 ++ l2) =
      (mergeFeatures route l1).bind (fun r => mergeFeatures r l2) := by
  induction l1 generalizing route with
  | nil => rfl
  | cons f rest ih =>
    rw [List.cons_append, mergeFeatures, mergeFeatures]
    cases mergeFeature route f.id f.geometry.coordinates.flatten with
    | none => rfl
    | some r2 => simpa using ih r2

/-- The collection loop is the merge of exactly the selected features. -/
theorem processCollections_eq_selected (route : RouteMap)
    (collections : List FeatureCollection) :
    processCollections route collections =
      mergeFeatures route (selectedFeatures collections) := by
  induction collections generalizing route with
  | nil => rfl
  | cons fc rest ih =>
    rw [processCollections, selectedFeatures, List.flatMap_cons,
      mergeFeatures_append]
    by_cases h : fc.properties.layer = targetLayerName
    · rw [if_neg (by simpa using h), if_pos h]
      cases mergeFeatures route fc.features with
      | none => rfl
      | some r2 => simpa [selectedFeatures] using ih r2
    · rw [if_pos h, if_neg h]
      simpa [selectedFeatures] using ih route

/-- C7: the filter keeps exactly the features of collections whose layer name
equals the target (by plain string equality); the per-tile processing is the
merge of exactly those features; and a tile with no matching layer leaves the
route unchanged (no error). -/
theorem claim_C7_layer_filter_exact :
    (∀ (collections : List FeatureCollection) (f : GeoFeature),
        f ∈ selectedFeatures collections ↔
          ∃ fc ∈ collections,
            fc.properties.layer = targetLayerName ∧ f ∈ fc.features)
    ∧ (∀ (route : RouteMap) (collections : List FeatureCollection),
        processCollections route collections =
          mergeFeatures route (selectedFeatures collections))
    ∧ (∀ (route : RouteMap) (collections : List FeatureCollection),
        (∀ fc ∈ collections, fc.properties.layer ≠ targetLayerName) →
        processCollections route collections = some route) := by
  refine ⟨?_, processCollections_eq_selected, ?_⟩
  · intro collections f
    simp only [selectedFeatures, List.mem_flatMap]
    constructor
    · rintro ⟨fc, hfc, hmem⟩
      by_cases h : fc.properties.layer = targetLayerName
      · exact ⟨fc, hfc, h, by simpa [h] using hmem⟩
      · simp [h] at hmem
    · rintro ⟨fc, hfc, h, hmem⟩
      exact ⟨fc, hfc, by simpa [h] using hmem⟩
  · intro route collections hall
    induction collections with
    | nil => rfl
    | cons fc rest ih =>
      rw [processCollections,
        if_pos (hall fc (List.mem_cons_self fc rest))]
      exact ih (fun fc2 h2 => hall fc2 (List.mem_cons_of_mem fc h2))

/-- C7 witness: a tile whose only layer is `"roads"` contributes nothing and
is not an error. -/
theorem claim_C7_layer_filter_exact_witness :
    processCollections [(7, [1, 2])]
        [{ properties := { layer := "roads" }, features := [] }]
      = some [(7, [1, 2])] :=
  claim_C7_layer_filter_exact.2.2 [(7, [1, 2])]
    [{ properties := { layer := "roads" }, features := [] }] (by decide)

/-- A failing fetch anywhere in the remaining tile list forces the loop to
finish in an error. -/
theorem runTiles_error_of_fetch_error
    (fetchDecode : Int × Int → Except String GeoData)
    (tiles : List (Int × Int)) :
    ∀ route, (∃ t ∈ tiles, ∃ e, fetchDecode t = .error e) →
      ∃ e2, runTiles fetchDecode tiles route = .error e2 := by
  induction tiles with
  | nil =>
    rintro route ⟨t, ht, -⟩
    simp at ht
  | cons t ts ih =>
    rintro route ⟨t2, ht2, e, he⟩
    rcases List.mem_cons.mp ht2 with rfl | hmem
    · rw [runTiles, he]
      exact ⟨e, rfl⟩
    · cases hf : fetchDecode t with
      | error e3 => exact ⟨e3, by rw [runTiles, hf]⟩
      | ok gd =>
        rw [runTiles, hf]
        show ∃ e2, (match processCollections route gd.features with
          | none => Except.error "index out of bounds"
          | some route2 => runTiles fetchDecode ts route2) = Except.error e2
        cases hp : processCollections route gd.features with
        | none => exact ⟨_, rfl⟩
        | some r2 => exact ih r2 ⟨t2, hmem, e, he⟩

/-- C8: if fetching-and-decoding fails on any tile of the hard-coded grid,
the whole run ends in an error — the GPX output is only produced on the `ok`
path, after every tile has been processed. -/
theorem claim_C8_fetch_failure_aborts :
    ∀ fetchDecode : Int × Int → Except String GeoData,
      (∃ t ∈ gridWalk top_left_tile bottom_right_tile,
        ∃ e, fetchDecode t = .error e) →
      ∃ e2, runMain fetchDecode = .error e2 := by
  intro fetchDecode h
  obtain ⟨e2, he2⟩ :=
    runTiles_error_of_fetch_error fetchDecode
      (gridWalk top_left_tile bottom_right_tile) [] h
  rw [runMain, he2]
  exact ⟨e2, rfl⟩

/-- C8 witness: a fetch that always fails with a transport error makes the
run abort with no waypoints written. -/
theorem claim_C8_fetch_failure_aborts_witness :
    ∃ e2, runMain (fun _ => .error "transport error") = .error e2 :=
  claim_C8_fetch_failure_aborts (fun _ => .error "transport error")
    ⟨(12531, 9365), by decide, "transport error", rfl⟩

/-! ### Safety claims: pairwise indexing and the progress divisor -/

/-- The GPX writer succeeds when every stored sequence has even length. -/
theorem write_to_gpx_isSome (m : RouteMap)
    (hm : ∀ kv ∈ m, Even kv.2.length) : (write_to_gpx m).isSome = true := by
  induction m with
  | nil => rfl
  | cons kv rest ih =>
    obtain ⟨k, coord⟩ := kv
    rw [write_to_gpx]
    obtain ⟨ps, hps⟩ := Option.isSome_iff_exists.mp
      ((pairUp_isSome_iff coord).mpr (hm (k, coord) (by simp)))
    obtain ⟨tail, htail⟩ := Option.isSome_iff_exists.mp
      (ih (fun kv2 hkv2 => hm kv2 (by simp [hkv2])))
    rw [hps, htail]
    rfl

/-- C9: the merge loop and the GPX writer read sequences at positions `i`
and `i + 1` with `i` stepping by 2: this succeeds exactly on even-length
sequences, the flattening of a lone scalar defeats it (panic, modelled as
`none`), and the writer succeeds on a route of even-length sequences. -/
theorem claim_C9_pairwise_indexing :
    (∀ l : List ℚ, (pairUp l).isSome ↔ Even l.length)
    ∧ (∀ e l : List ℚ, (mergeInto e l).isSome = (pairUp l).isSome)
    ∧ (∀ v : ℚ, pairUp (GeometryCoordinate.Single v).flatten = none)
    ∧ (∀ m : RouteMap, (∀ kv ∈ m, Even kv.2.length) →
        (write_to_gpx m).isSome = true) :=
  ⟨pairUp_isSome_iff, mergeInto_isSome_iff, fun _ => rfl, write_to_gpx_isSome⟩

/-- C9 witness: the writer succeeds on a route holding one even-length
sequence. -/
theorem claim_C9_pairwise_indexing_witness :
    (write_to_gpx [(7, [1, 2, 3, 4])]).isSome = true :=
  claim_C9_pairwise_indexing.2.2.2 [(7, [1, 2, 3, 4])] (by decide)

/-- C10: with at least 10 tiles the progress divisor `total / 10` is positive
and the modulo is well-defined; with fewer than 10 tiles the divisor is 0 and
the modulo panics (`none`); the hard-coded grid has 10 × 12 = 120 tiles. -/
theorem claim_C10_progress_divisor :
    (∀ total processed : Int, 10 ≤ total →
        0 < Int.tdiv total NOTIFY_EVERY_PERCENT
        ∧ ∃ b, progressCheck processed total = some b)
    ∧ (∀ total processed : Int, 0 ≤ total → total < 10 →
        progressCheck processed total = none)
    ∧ total_tile_count top_left_tile bottom_right_tile = 120
    ∧ (10 : Int) ≤ total_tile_count top_left_tile bottom_right_tile := by
  refine ⟨?_, ?_, by decide, by decide⟩
  · intro total processed h
    have hd : 0 < Int.tdiv total 10 := by
      rw [Int.tdiv_eq_ediv (by omega) (by omega)]
      omega
    refine ⟨hd, ?_⟩
    simp only [progressCheck, NOTIFY_EVERY_PERCENT]
    rw [if_neg (by omega)]
    exact ⟨_, rfl⟩
  · intro total processed h0 h10
    have hd : Int.tdiv total 10 = 0 := by
      rw [Int.tdiv_eq_ediv (by omega) (by omega)]
      omega
    simp only [progressCheck, NOTIFY_EVERY_PERCENT]
    rw [if_pos hd]

/-- C10 witness: with the grid's 120 tiles the divisor is positive and the
check is defined; with a 9-tile grid the modulo panics. -/
theorem claim_C10_progress_divisor_witness :
    (0 < Int.tdiv 120 NOTIFY_EVERY_PERCENT
      ∧ ∃ b, progressCheck 12 120 = some b)
    ∧ progressCheck 1 9 = none :=
  ⟨claim_C10_progress_divisor.1 120 12 (by decide),
    claim_C10_progress_divisor.2.1 9 1 (by decide) (by decide)⟩

end Mcm
